import Mathlib

/-!
Verification development for the resticprofile configuration core.

The repository sources available here contain the configuration test
suite (`config` package tests) and the self-update command; the
configuration implementation itself (LoadProfile, GetCommonFlags,
GetCommandFlags, GetRetentionFlags, fixPath, ProfileKeys, ProfileGroups,
ProfileSections) is not among the source files. Those operations are
therefore modelled from the specification, and every model is checked
against the concrete behaviour pinned down by the test suite: each test
configuration is embedded as a concrete store and the expected results
are proved about the model.

Conventions of the embedding:
- Config values form a closed tagged variant, as section 9 of the spec
  prescribes for a reimplementation: Bool, String, Int, Float, List, Map.
- Floats are carried in fixed-point millionths as decoded from the
  decimal literal, so that the six-fractional-digit serialisation of the
  spec is exact.
- The external decoder lower-cases keys; all embedded stores use the
  lower-cased keys directly, and key lookup is exact match.
-/

set_option autoImplicit false

namespace Resticprofile

/-- Modelled from the spec: runtime values of the configuration store,
decoded once at the ConfigStore boundary into a closed tagged-variant
type Bool / String / Int / Float / List / Map (spec section 9).
A float is stored as its value in millionths (fixed point, six
fractional digits), as decoded from the decimal literal. -/
inductive Value where
  | vbool (b : Bool)
  | vstr (s : String)
  | vint (n : Int)
  | vfloat (micro : Int)
  | vlist (xs : List Value)
  | vmap (m : List (String × Value))
deriving Repr, Inhabited

/-- One level of the hierarchical store: an association list from keys
to values. The top level of the store has this shape as well. -/
abbrev Entries := List (String × Value)

/-- The whole configuration store: the top-level association list. -/
abbrev Store := Entries

/-- First-match association list lookup (the decoder produces unique
keys, so first match is the only match on decoded input). -/
def lookupKey {α : Type} : List (String × α) → String → Option α
  | [], _ => none
  | (k', v) :: rest, k => if k' = k then some v else lookupKey rest k

/-- Set a key in an association list: replace the first occurrence in
place, or append the binding when the key is absent. -/
def setKey {α : Type} : List (String × α) → String → α → List (String × α)
  | [], k, v => [(k, v)]
  | (k', v') :: rest, k, v =>
      if k' = k then (k', v) :: rest else (k', v') :: setKey rest k v

/-- Project a bool-typed value. -/
def getBool : Option Value → Option Bool
  | some (.vbool b) => some b
  | _ => none

/-- Project a string-typed value. -/
def getStr : Option Value → Option String
  | some (.vstr s) => some s
  | _ => none

/-- Keys of one configuration level that are interpreted as dedicated
scalar fields or as the inheritance reference, not as OtherFlags. -/
def scalarKeys : List String :=
  ["inherit", "initialize", "quiet", "verbose", "repository"]

/-- Whether a value is a nested map (a per-command section). -/
def Value.isMap : Value → Bool
  | .vmap _ => true
  | _ => false

/-- Modelled from the spec: the raw view of one top-level named entry
(ProfileDefinition, spec section 3): name, optional inherit reference,
optional explicit scalar fields, OtherFlags, and named sections. -/
structure ProfileDef where
  Name : String
  Inherit : Option String
  Initialize : Option Bool
  Quiet : Option Bool
  Verbose : Option Bool
  Repository : Option String
  OtherFlags : Entries
  Sections : List (String × Entries)
deriving Repr, Inhabited

/-- Modelled from the spec: split one level of raw entries into the
ProfileDefinition view. Map-valued entries become sections; the
dedicated scalar keys feed the scalar fields; everything else is an
OtherFlags entry. -/
def toProfileDef (name : String) (entries : Entries) : ProfileDef :=
  { Name := name
    Inherit := getStr (lookupKey entries "inherit")
    Initialize := getBool (lookupKey entries "initialize")
    Quiet := getBool (lookupKey entries "quiet")
    Verbose := getBool (lookupKey entries "verbose")
    Repository := getStr (lookupKey entries "repository")
    OtherFlags :=
      entries.filter (fun e => !(scalarKeys.contains e.1) && !(e.2.isMap))
    Sections :=
      entries.filterMap (fun e =>
        match e.2 with
        | .vmap m => some (e.1, m)
        | _ => none) }

/-- Look up a top-level name that denotes a profile (a map-valued
top-level entry). -/
def lookupMapEntry (store : Store) (name : String) : Option Entries :=
  match lookupKey store name with
  | some (.vmap m) => some m
  | _ => none

/-- Modelled from the spec: the two malformed-chain error kinds of the
InheritanceResolver (spec section 4.1 and section 7). -/
inductive ResolveError where
  | unknownParent (name : String)
  | cyclicInheritance (name : String)
deriving Repr, DecidableEq

/-- Modelled from the spec: build the ordered ancestor chain
self, parent, grandparent, ... by repeatedly following the `inherit`
reference (spec section 4.1). A missing referenced name yields
UnknownParentError; a repeated name yields CyclicInheritanceError. The
fuel argument only bounds the recursion; with fuel larger than the
store it is never exhausted because every step visits a fresh store
entry. -/
def buildChain (store : Store) :
    Nat → List String → String → Entries → Except ResolveError (List ProfileDef)
  | fuel, visited, name, entries =>
    let pd := toProfileDef name entries
    match pd.Inherit with
    | none => .ok [pd]
    | some parent =>
      if visited.contains parent then .error (.cyclicInheritance parent)
      else
        match lookupMapEntry store parent with
        | none => .error (.unknownParent parent)
        | some pentries =>
          match fuel with
          | 0 => .error (.cyclicInheritance parent)
          | fuel' + 1 =>
            (buildChain store fuel' (parent :: visited) parent pentries).map
              (fun chain => pd :: chain)

/-- Modelled from the spec: the resolved Profile (spec section 3):
merged result of a full chain, plus the process-wide current-host value
captured per profile by SetHost. -/
structure Profile where
  Name : String
  Initialize : Bool := false
  Quiet : Bool := false
  Verbose : Bool := false
  Repository : String := ""
  Host : String := ""
  OtherFlags : Entries := []
  Sections : List (String × Entries) := []
deriving Repr, Inhabited

/-- Modelled from the spec: SetHost records the current-host value used
by host substitution (spec section 4.4). -/
def Profile.setHost (p : Profile) (h : String) : Profile := { p with Host := h }

/-- First defined value in a list of optional scalar occurrences,
scanning the chain self toward root (spec section 4.2). -/
def firstSome {α : Type} : List (Option α) → Option α
  | [] => none
  | some a :: _ => some a
  | none :: rest => firstSome rest

/-- Overlay an association list onto a base: every overlay binding
overwrites the base binding of the same key, fresh keys are added, so
the key set is the union (spec section 4.2). -/
def mergeMaps {α : Type} (base : List (String × α)) :
    List (String × α) → List (String × α)
  | [] => base
  | (k, v) :: rest => mergeMaps (setKey base k v) rest

/-- Modelled from the spec: merged OtherFlags of a chain given self
first: iterate the chain root toward self overwriting each key at every
step, so the key set accumulates across the chain and each key's final
value is the explicit level closest to self (spec section 4.2). -/
def mergeChainOther : List ProfileDef → Entries
  | [] => []
  | pd :: rest => mergeMaps (mergeChainOther rest) pd.OtherFlags

/-- Merge one level's named sections onto the already-merged ancestor
sections, key-wise per section (spec section 4.2). -/
def mergeSectionList (base : List (String × Entries)) :
    List (String × Entries) → List (String × Entries)
  | [] => base
  | (name, entries) :: rest =>
      let merged :=
        match lookupKey base name with
        | some b => mergeMaps b entries
        | none => entries
      mergeSectionList (setKey base name merged) rest

/-- Modelled from the spec: merged sections of a chain given self
first; the section-name set is the union across the chain and inside
each section self wins key-wise (spec section 4.2). -/
def mergeChainSections : List ProfileDef → List (String × Entries)
  | [] => []
  | pd :: rest => mergeSectionList (mergeChainSections rest) pd.Sections

/-- Modelled from the spec: fold a resolved chain (self first) into the
effective Profile: each scalar field takes the first explicit value
scanning self toward root and otherwise its documented default
(Initialize=false, Quiet=false, Verbose=false, Repository empty);
OtherFlags and sections merge with nearest-to-self precedence
(spec section 4.2). -/
def mergeChain (name : String) (chain : List ProfileDef) : Profile :=
  { Name := name
    Initialize := (firstSome (chain.map (·.Initialize))).getD false
    Quiet := (firstSome (chain.map (·.Quiet))).getD false
    Verbose := (firstSome (chain.map (·.Verbose))).getD false
    Repository := (firstSome (chain.map (·.Repository))).getD ""
    OtherFlags := mergeChainOther chain
    Sections := mergeChainSections chain }

/-- Modelled from the spec: LoadProfile, returning the Go-shaped pair
of optional profile and optional error. A name entirely absent from the
store yields no profile and no error; a malformed chain yields an error
and no profile (spec sections 4.1 and 7). -/
def loadProfile (store : Store) (name : String) :
    Option Profile × Option ResolveError :=
  match lookupMapEntry store name with
  | none => (none, none)
  | some entries =>
    match buildChain store (store.length + 1) [name] name entries with
    | .error e => (none, some e)
    | .ok chain => (some (mergeChain name chain), none)

/-- Left-pad the decimal rendering of a fractional part to the six
digits of the fixed-point float serialisation. -/
def padZeros6 (n : Nat) : String :=
  let s := toString n
  String.mk (List.replicate (6 - s.length) '0') ++ s

/-- Fixed-point rendering of a float carried in millionths, with six
fractional digits, as the serialisation table of spec section 4.3
prescribes for floats. -/
def formatMicro (m : Int) : String :=
  (if m < 0 then "-" else "") ++
    toString (m.natAbs / 1000000) ++ "." ++ padZeros6 (m.natAbs % 1000000)

/-- Render one value as a single argument string: the stringification
used for list elements (spec section 4.3). -/
def stringify : Value → String
  | .vbool true => "true"
  | .vbool false => "false"
  | .vstr s => s
  | .vint n => toString n
  | .vfloat m => formatMicro m
  | .vlist _ => ""
  | .vmap _ => ""

/-- Modelled from the spec: the type-directed serialisation table of
one flag value (spec section 4.3). The result is the ordered argument
list of the flag, an empty list meaning flag present with no value, and
none meaning the flag is not emitted. -/
def serializeValue : Value → Option (List String)
  | .vbool true => some []
  | .vbool false => none
  | .vstr s => if s = "" then none else some [s]
  | .vint n => if n = 0 then none else some [toString n]
  | .vfloat m => if m = 0 then none else some [formatMicro m]
  | .vlist xs => if xs.isEmpty then none else some (xs.map stringify)
  | .vmap _ => none

/-- A generated flag map: flag name to ordered argument list. -/
abbrev Flags := List (String × List String)

/-- Serialise a merged flag map entry-wise in order, dropping the
entries the serialisation table omits (spec section 4.3). -/
def addFlags : Entries → Flags
  | [] => []
  | (k, v) :: rest =>
      match serializeValue v with
      | some args => (k, args) :: addFlags rest
      | none => addFlags rest

/-- Flags derived from the dedicated scalar fields: Quiet and Verbose
are emitted under their own names by the boolean rules, and the
Repository value under the flag name repo by the string rules. The
implementation is absent from the sources; the flag names are pinned by
TestProfileCommonFlags. -/
def scalarFlags (p : Profile) : Flags :=
  (if p.Quiet then [("quiet", ([] : List String))] else []) ++
    (if p.Verbose then [("verbose", ([] : List String))] else []) ++
    (if p.Repository = "" then [] else [("repo", [p.Repository])])

/-- Modelled from the spec: GetCommonFlags serialises the profile-level
merged flags (spec section 4.3), together with the scalar-derived flags
pinned by TestProfileCommonFlags. -/
def Profile.GetCommonFlags (p : Profile) : Flags :=
  scalarFlags p ++ addFlags p.OtherFlags

/-- Modelled from the spec: host substitution inside one section (spec
section 4.4): a boolean true host entry is replaced by the current-host
string before generic serialisation; a literal string stays; any other
entry is untouched (a boolean false host entry is then omitted by the
serialisation table). -/
def hostValueSubst (hostname : String) : Value → Value
  | .vbool true => .vstr hostname
  | v => v

/-- Host substitution on one entry: only the host key is affected. -/
def hostEntry (hostname : String) (k : String) (v : Value) : String × Value :=
  if k = "host" then (k, hostValueSubst hostname v) else (k, v)

/-- Host substitution applied entry-wise across a section. -/
def hostSubst (hostname : String) : Entries → Entries
  | [] => []
  | (k, v) :: rest => hostEntry hostname k v :: hostSubst hostname rest

/-- Look up a named section of the resolved profile. -/
def Profile.section_ (p : Profile) (command : String) : Option Entries :=
  lookupKey p.Sections command

/-- Modelled from the spec: GetCommandFlags serialises the named merged
section after host substitution (spec sections 4.3 and 4.4). -/
def Profile.GetCommandFlags (p : Profile) (command : String) : Flags :=
  match p.section_ command with
  | none => []
  | some entries => addFlags (hostSubst p.Host entries)

/-- Modelled from the spec: the effective retention section after path
defaulting (spec section 4.5): when the retention section has no
explicit path and the backup section declares a source, that source
value becomes retention's path; an explicit retention path is never
overwritten. -/
def retentionWithPath (p : Profile) : Entries :=
  let retention := (p.section_ "retention").getD []
  match lookupKey retention "path" with
  | some _ => retention
  | none =>
    match lookupKey ((p.section_ "backup").getD []) "source" with
    | some v => setKey retention "path" v
    | none => retention

/-- Modelled from the spec: GetRetentionFlags is GetCommandFlags of the
retention section after applying the path default (spec section 4.5). -/
def Profile.GetRetentionFlags (p : Profile) : Flags :=
  addFlags (hostSubst p.Host (retentionWithPath p))

/-- A character that may be part of a Unix environment variable name. -/
def varChar (c : Char) : Bool := c.isAlphanum || c = '_'

/-- Environment lookup for expansion: an unset variable expands to the
empty string. -/
def envLookup (env : List (String × String)) (k : String) : String :=
  (lookupKey env k).getD ""

/-- Emit the expansion of one collected variable name (held reversed);
a lone dollar sign with no name stays a literal dollar sign. -/
def flushVar (env : List (String × String)) (acc : List Char) : List Char :=
  if acc.isEmpty then ['$'] else (envLookup env (String.mk acc.reverse)).data

/-- One pass over the characters expanding dollar-sign variable
references: the middle flag says whether a variable name is being
collected, the accumulator holds its characters reversed. -/
def expandGo (env : List (String × String)) : List Char → Bool → List Char → List Char
  | [], false, _ => []
  | [], true, acc => flushVar env acc
  | c :: cs, false, _ =>
      if c = '$' then expandGo env cs true []
      else c :: expandGo env cs false []
  | c :: cs, true, acc =>
      if varChar c then expandGo env cs true (c :: acc)
      else
        flushVar env acc ++
          (if c = '$' then expandGo env cs true []
           else c :: expandGo env cs false [])

/-- Modelled from the spec: expansion of dollar-sign variable
references of a whole string against the process environment, as the
Unix-style path fixup performs before returning (spec section 4.6). -/
def expandEnv (env : List (String × String)) (s : String) : String :=
  String.mk (expandGo env s.data false [])

/-- Leading-substring test over the character lists of two strings. -/
def strStartsWith (s pre : String) : Bool := pre.data.isPrefixOf s.data

/-- Join a relative path onto the base directory with the given
separator, without doubling a separator the path already starts with. -/
def joinPath (sep : String) (baseDir p : String) : String :=
  if strStartsWith p sep then baseDir ++ p else baseDir ++ sep ++ p

/-- Modelled from the spec: the Unix-style variant of fixPath (spec
section 4.6): empty input stays empty; absolute, home-relative and
dollar-prefixed inputs are returned after environment-variable
expansion; any other relative path is prefixed with the base directory
using the slash separator. -/
def fixPathUnix (env : List (String × String)) (source baseDir : String) : String :=
  if source = "" then ""
  else if strStartsWith source "/" || strStartsWith source "~"
      || strStartsWith source "$" then
    expandEnv env source
  else joinPath "/" baseDir source

/-- Whether a path is absolute in the Windows sense: a drive letter
followed by a colon. -/
def isWindowsAbs (s : String) : Bool :=
  match s.data with
  | _ :: ':' :: _ => true
  | _ => false

/-- Modelled from the spec: the Windows-style variant of fixPath (spec
section 4.6): empty input stays empty; drive-absolute, home-relative
and percent-prefixed inputs are returned unchanged, percent variable
references left untouched; any other relative path is prefixed with the
base directory using the backslash separator. -/
def fixPathWindows (source baseDir : String) : String :=
  if source = "" then ""
  else if isWindowsAbs source || strStartsWith source "~"
      || strStartsWith source "%" then
    source
  else joinPath "\\" baseDir source

/-- Append a dotted segment to a key path. -/
def dotted (pre k : String) : String :=
  if pre = "" then k else pre ++ "." ++ k

/-- The leaf-key enumeration the hierarchical store exposes: the dotted
paths of all entries holding a leaf value. A section without any leaf
value underneath contributes no key, as the external decoder's
flattening drops value-less sections. -/
def leafKeys : Entries → String → List String
  | [], _ => []
  | (k, .vmap m) :: rest, pre => leafKeys m (dotted pre k) ++ leafKeys rest pre
  | (k, _) :: rest, pre => dotted pre k :: leafKeys rest pre

/-- All exposed dotted leaf keys of the store. -/
def allKeys (store : Store) : List String := leafKeys store ""

/-- Top-level names reserved for configuration rather than profiles. -/
def reservedNames : List String := ["global", "groups"]

/-- The top-level segment of a dotted key path. -/
def firstSegment (s : String) : String :=
  String.mk (s.data.takeWhile (fun c => c ≠ '.'))

/-- Keep the first occurrence of every element. -/
def dedup (xs : List String) : List String :=
  xs.foldl (fun acc x => if acc.contains x then acc else acc ++ [x]) []

/-- The non-reserved top-level names the store enumeration exposes, in
first-appearance order. -/
def profileNameList (store : Store) : List String :=
  dedup (((allKeys store).map firstSegment).filter
    (fun n => !(reservedNames.contains n)))

/-- Modelled from the spec: ProfileKeys (spec section 4.7): the
top-level entries the store enumeration exposes, excluding the reserved
names, with an absent result when none exist. -/
def ProfileKeys (store : Store) : Option (List String) :=
  if (profileNameList store).isEmpty then none
  else some (profileNameList store)

/-- The command-like subsections of one top-level entry: the names of
its map-valued entries. -/
def sectionNamesOf (store : Store) (name : String) : List String :=
  match lookupMapEntry store name with
  | some m => m.filterMap (fun kv => if kv.2.isMap then some kv.1 else none)
  | none => []

/-- The catalog entry of one profile name: present exactly when the
profile holds at least one command-like subsection. -/
def sectionEntryOf (store : Store) (n : String) : Option (String × List String) :=
  if (sectionNamesOf store n).isEmpty then none
  else some (n, sectionNamesOf store n)

/-- Modelled from the spec: ProfileSections (spec section 4.7): the
subset of ProfileKeys restricted to the entries containing at least one
command-like subsection, each mapped to its subsection names. -/
def ProfileSections (store : Store) : Option (List (String × List String)) :=
  match ProfileKeys store with
  | none => none
  | some names => some (names.filterMap (sectionEntryOf store))

/-- Render a list-typed value as a member-name list. -/
def toStringList : Value → List String
  | .vlist xs => xs.map stringify
  | _ => []

/-- Modelled from the spec: ProfileGroups (spec section 4.7): the
mapping group-name to ordered member list under the reserved groups
section; an empty-but-present groups section yields a present-but-empty
mapping, true absence yields an absent result. -/
def ProfileGroups (store : Store) : Option (List (String × List String)) :=
  match lookupKey store "groups" with
  | some (.vmap g) => some (g.map (fun kv => (kv.1, toStringList kv.2)))
  | _ => none

/-! Association-list toolkit used by the precedence and serialisation
proofs. -/

/-- Left-biased choice on optional values. -/
def orOpt {α : Type} : Option α → Option α → Option α
  | some v, _ => some v
  | none, b => b

/-- The key list of an association list. -/
def keysOf {α : Type} (m : List (String × α)) : List String := m.map Prod.fst

/-- An association list with pairwise distinct keys, as the external
decoder produces. -/
def NodupKeys {α : Type} (m : List (String × α)) : Prop := (keysOf m).Nodup

instance {α : Type} (m : List (String × α)) : Decidable (NodupKeys m) :=
  inferInstanceAs (Decidable (keysOf m).Nodup)

theorem lookupKey_append {α : Type} (a b : List (String × α)) (k : String) :
    lookupKey (a ++ b) k = orOpt (lookupKey a k) (lookupKey b k) := by
  induction a with
  | nil => simp [lookupKey, orOpt]
  | cons hd tl ih =>
      obtain ⟨k', v⟩ := hd
      by_cases h : k' = k <;> simp [lookupKey, h, ih, orOpt]

theorem lookupKey_eq_none_iff {α : Type} (m : List (String × α)) (k : String) :
    lookupKey m k = none ↔ k ∉ keysOf m := by
  induction m with
  | nil => simp [lookupKey, keysOf]
  | cons hd tl ih =>
      obtain ⟨k', v⟩ := hd
      by_cases h : k' = k
      · simp [lookupKey, keysOf, h, ih]
      · simp only [lookupKey, keysOf, List.map_cons, List.mem_cons, if_neg h, ih]
        tauto

theorem lookupKey_setKey {α : Type} (m : List (String × α)) (k j : String) (v : α) :
    lookupKey (setKey m k v) j = if j = k then some v else lookupKey m j := by
  induction m with
  | nil =>
      by_cases h : j = k
      · simp [setKey, lookupKey, h]
      · have h' : ¬ k = j := fun hh => h hh.symm
        simp [setKey, lookupKey, h, h']
  | cons hd tl ih =>
      obtain ⟨k', v'⟩ := hd
      by_cases hk : k' = k
      · subst hk
        by_cases hj : j = k'
        · simp [setKey, lookupKey, hj]
        · have h' : ¬ k' = j := fun hh => hj hh.symm
          simp [setKey, lookupKey, hj, h']
      · by_cases hj : k' = j
        · have h' : ¬ j = k := fun hh => hk (hj ▸ hh)
          simp [setKey, lookupKey, hk, hj, h']
        · simp [setKey, lookupKey, hk, hj, ih]

theorem setKey_of_not_mem {α : Type} (m : List (String × α)) (k : String) (v : α)
    (h : k ∉ keysOf m) : setKey m k v = m ++ [(k, v)] := by
  induction m with
  | nil => simp [setKey]
  | cons hd tl ih =>
      obtain ⟨k', v'⟩ := hd
      simp only [keysOf, List.map_cons, List.mem_cons] at h
      push_neg at h
      have h' : ¬ k' = k := fun hh => h.1 hh.symm
      simp [setKey, h', ih h.2]

theorem lookupKey_mergeMaps {α : Type} (ov base : List (String × α))
    (h : NodupKeys ov) (j : String) :
    lookupKey (mergeMaps base ov) j = orOpt (lookupKey ov j) (lookupKey base j) := by
  induction ov generalizing base with
  | nil => simp [mergeMaps, lookupKey, orOpt]
  | cons hd tl ih =>
      obtain ⟨k, v⟩ := hd
      simp only [NodupKeys, keysOf, List.map_cons, List.nodup_cons] at h
      have htl : NodupKeys tl := h.2
      by_cases hj : j = k
      · subst hj
        have hnone : lookupKey tl j = none :=
          (lookupKey_eq_none_iff tl j).mpr h.1
        simp [mergeMaps, ih _ htl, hnone, lookupKey_setKey, lookupKey, orOpt]
      · have : ¬ k = j := fun hh => hj hh.symm
        simp [mergeMaps, ih _ htl, lookupKey_setKey, hj, lookupKey, this]

/-- The effective value of one OtherFlags key described by the spec:
the first level scanning self toward root that defines the key. -/
def firstDefined : List ProfileDef → String → Option Value
  | [], _ => none
  | pd :: rest, k => orOpt (lookupKey pd.OtherFlags k) (firstDefined rest k)

theorem lookupKey_mergeChainOther (chain : List ProfileDef)
    (h : ∀ pd ∈ chain, NodupKeys pd.OtherFlags) (j : String) :
    lookupKey (mergeChainOther chain) j = firstDefined chain j := by
  induction chain with
  | nil => simp [mergeChainOther, firstDefined, lookupKey]
  | cons pd rest ih =>
      have hpd : NodupKeys pd.OtherFlags := h pd (by simp)
      have hr : ∀ q ∈ rest, NodupKeys q.OtherFlags := fun q hq => h q (by simp [hq])
      simp [mergeChainOther, lookupKey_mergeMaps _ _ hpd, firstDefined, ih hr]

theorem firstDefined_isSome (chain : List ProfileDef) (j : String) :
    (firstDefined chain j).isSome ↔
      ∃ pd ∈ chain, (lookupKey pd.OtherFlags j).isSome := by
  induction chain with
  | nil => simp [firstDefined]
  | cons pd rest ih =>
      cases hl : lookupKey pd.OtherFlags j <;>
        simp [firstDefined, hl, orOpt, ih]

theorem firstSome_of_all_none {α : Type} (l : List (Option α))
    (h : ∀ x ∈ l, x = none) : firstSome l = none := by
  induction l with
  | nil => rfl
  | cons hd tl ih =>
      have hhd := h hd (by simp)
      subst hhd
      exact ih fun x hx => h x (by simp [hx])

theorem lookupKey_addFlags (entries : Entries) (h : NodupKeys entries) (j : String) :
    lookupKey (addFlags entries) j = (lookupKey entries j).bind serializeValue := by
  induction entries with
  | nil => simp [addFlags, lookupKey]
  | cons hd tl ih =>
      obtain ⟨k, v⟩ := hd
      simp only [NodupKeys, keysOf, List.map_cons, List.nodup_cons] at h
      have htl := ih h.2
      by_cases hj : k = j
      · subst hj
        cases hs : serializeValue v with
        | none =>
            have hnone : lookupKey tl k = none :=
              (lookupKey_eq_none_iff tl k).mpr h.1
            have hfl : lookupKey (addFlags tl) k = none := by
              rw [htl, hnone]; rfl
            simp [addFlags, hs, lookupKey, hfl]
        | some args => simp [addFlags, hs, lookupKey]
      · cases hs : serializeValue v with
        | none => simp [addFlags, hs, lookupKey, hj, htl]
        | some args => simp [addFlags, hs, lookupKey, hj, htl]

theorem lookupKey_addFlags_of_not_mem (entries : Entries) (j : String)
    (h : j ∉ keysOf entries) : lookupKey (addFlags entries) j = none := by
  induction entries with
  | nil => simp [addFlags, lookupKey]
  | cons hd tl ih =>
      obtain ⟨k, v⟩ := hd
      simp only [keysOf, List.map_cons, List.mem_cons] at h
      push_neg at h
      have htl := ih h.2
      have h' : ¬ k = j := fun hh => h.1 hh.symm
      cases hs : serializeValue v with
      | none => simp [addFlags, hs, htl]
      | some args => simp [addFlags, hs, lookupKey, h', htl]

/-- The host entry-level effect of host substitution on the looked-up
value. -/
def hostResolve (h : String) : Option Value → Option Value
  | some (.vbool true) => some (.vstr h)
  | x => x

theorem hostEntry_fst (h k : String) (v : Value) : (hostEntry h k v).1 = k := by
  by_cases hk : k = "host" <;> simp [hostEntry, hk]

theorem hostEntry_of_ne (h k : String) (v : Value) (hk : ¬ k = "host") :
    hostEntry h k v = (k, v) := by
  simp [hostEntry, hk]

theorem hostEntry_host (h : String) (v : Value) :
    hostEntry h "host" v = ("host", hostValueSubst h v) := by
  simp [hostEntry]

theorem hostSubst_cons_ne (h k : String) (v : Value) (tl : Entries)
    (hk : ¬ k = "host") :
    hostSubst h ((k, v) :: tl) = (k, v) :: hostSubst h tl := by
  simp [hostSubst, hostEntry_of_ne _ _ _ hk]

theorem hostSubst_cons_host (h : String) (v : Value) (tl : Entries) :
    hostSubst h (("host", v) :: tl) = ("host", hostValueSubst h v) :: hostSubst h tl := by
  simp [hostSubst, hostEntry_host]

theorem hostResolve_some (h : String) (v : Value) :
    hostResolve h (some v) = some (hostValueSubst h v) := by
  cases v with
  | vbool b => cases b <;> rfl
  | vstr s => rfl
  | vint n => rfl
  | vfloat m => rfl
  | vlist xs => rfl
  | vmap mm => rfl

theorem keysOf_hostSubst (h : String) (m : Entries) :
    keysOf (hostSubst h m) = keysOf m := by
  induction m with
  | nil => rfl
  | cons hd tl ih =>
      obtain ⟨k, v⟩ := hd
      simp [hostSubst, keysOf, hostEntry_fst]
      simpa [keysOf] using ih

theorem lookupKey_hostSubst_ne (h : String) (m : Entries) (j : String)
    (hj : j ≠ "host") : lookupKey (hostSubst h m) j = lookupKey m j := by
  induction m with
  | nil => rfl
  | cons hd tl ih =>
      obtain ⟨k, v⟩ := hd
      by_cases hk : k = "host"
      · subst hk
        have h' : ¬ ("host" : String) = j := fun hh => hj hh.symm
        rw [hostSubst_cons_host]
        simp [lookupKey, h', ih]
      · rw [hostSubst_cons_ne _ _ _ _ hk]
        by_cases hkj : k = j <;> simp [lookupKey, hkj, ih]

theorem lookupKey_hostSubst_host (h : String) (m : Entries) :
    lookupKey (hostSubst h m) "host" = hostResolve h (lookupKey m "host") := by
  induction m with
  | nil => rfl
  | cons hd tl ih =>
      obtain ⟨k, v⟩ := hd
      by_cases hk : k = "host"
      · subst hk
        rw [hostSubst_cons_host]
        simp [lookupKey, hostResolve_some]
      · rw [hostSubst_cons_ne _ _ _ _ hk]
        simp [lookupKey, hk, ih]

/-! Concrete stores embedding the configurations of the repository's
test suite, decoded into the value model (keys lower-cased, floats in
millionths). -/

/-- The TestMultiInheritance configuration. -/
def storeMulti : Store := [
  ("grand-parent", .vmap [("repository", .vstr "grand-parent"),
    ("first-value", .vint 1), ("override-value", .vint 1)]),
  ("parent", .vmap [("inherit", .vstr "grand-parent"), ("initialize", .vbool true),
    ("repository", .vstr "parent"), ("second-value", .vint 2),
    ("override-value", .vint 2), ("quiet", .vbool true)]),
  ("profile", .vmap [("inherit", .vstr "parent"), ("third-value", .vint 3),
    ("verbose", .vbool true), ("quiet", .vbool false)])]

/-- The TestOverriddenInitializeValueFalse configuration. -/
def storeOverride : Store := [
  ("parent", .vmap [("initialize", .vbool true)]),
  ("profile", .vmap [("initialize", .vbool false), ("inherit", .vstr "parent")])]

/-- The TestUnknownParent configuration. -/
def storeUnknown : Store := [("profile", .vmap [("inherit", .vstr "parent")])]

/-- The TestProfileOtherFlags configuration. -/
def storeFlags : Store := [
  ("profile", .vmap [
    ("bool-true", .vbool true), ("bool-false", .vbool false),
    ("string", .vstr "test"), ("zero", .vint 0), ("empty", .vstr ""),
    ("float", .vfloat 4200000), ("int", .vint 42),
    ("array0", .vlist []), ("array1", .vlist [.vint 1]),
    ("array2", .vlist [.vstr "one", .vstr "two"])])]

/-- The TestProfileCommonFlags configuration. -/
def storeCommon : Store := [
  ("profile", .vmap [("quiet", .vbool true), ("verbose", .vbool false),
    ("repository", .vstr "test")])]

/-- The TestHostInProfile configuration. -/
def storeHost : Store := [
  ("profile", .vmap [("initialize", .vbool true),
    ("backup", .vmap [("host", .vbool true)]),
    ("snapshots", .vmap [("host", .vstr "ConfigHost")])])]

/-- The TestKeepPathInRetention configuration. -/
def storeKeep : Store := [
  ("profile", .vmap [("initialize", .vbool true),
    ("backup", .vmap [("source", .vstr "/")]),
    ("retention", .vmap [("host", .vbool false)])])]

/-- The TestReplacePathInRetention configuration. -/
def storeReplace : Store := [
  ("profile", .vmap [("initialize", .vbool true),
    ("backup", .vmap [("source", .vstr "/some_other_path")]),
    ("retention", .vmap [("path", .vstr "/")])])]

/-- The TestProfileKeys and TestProfileSections configuration. -/
def storeCatalog : Store := [
  ("profile1", .vmap []),
  ("profile2", .vmap []),
  ("profile3", .vmap [("backup", .vmap []), ("retention", .vmap [])]),
  ("profile4", .vmap [("value", .vint 1), ("backup", .vmap [("source", .vstr "/")])]),
  ("profile5", .vmap [("other", .vint 2), ("snapshots", .vmap [])]),
  ("global", .vmap [("initialize", .vbool true)])]

/-- The TestProfileGroups configuration. -/
def storeGroups : Store := [
  ("groups", .vmap [("first", .vlist [.vstr "backup"]),
    ("second", .vlist [.vstr "root", .vstr "dev"])])]

/-- The profile of storeFlags once resolved. -/
def pFlags : Profile := (loadProfile storeFlags "profile").1.getD default

/-- The profile of storeCommon once resolved. -/
def pCommon : Profile := (loadProfile storeCommon "profile").1.getD default

/-- The profile of storeHost once resolved. -/
def pHost : Profile := (loadProfile storeHost "profile").1.getD default

/-- The profile of storeKeep once resolved. -/
def pKeep : Profile := (loadProfile storeKeep "profile").1.getD default

/-- The profile of storeReplace once resolved. -/
def pReplace : Profile := (loadProfile storeReplace "profile").1.getD default

/-! Claim theorems. -/

/-- The self-first chain of the TestMultiInheritance configuration. -/
def chainMulti : List ProfileDef :=
  [toProfileDef "profile" [("inherit", .vstr "parent"), ("third-value", .vint 3),
      ("verbose", .vbool true), ("quiet", .vbool false)],
   toProfileDef "parent" [("inherit", .vstr "grand-parent"), ("initialize", .vbool true),
      ("repository", .vstr "parent"), ("second-value", .vint 2),
      ("override-value", .vint 2), ("quiet", .vbool true)],
   toProfileDef "grand-parent" [("repository", .vstr "grand-parent"),
      ("first-value", .vint 1), ("override-value", .vint 1)]]

/-- C1: for every profile whose inheritance chain resolves, the merged
Profile satisfies the precedence rules: each scalar field takes the
first explicit value found scanning self toward root (an explicit false
in the child overrides a parent's true, and a never-set field takes its
documented default), while for OtherFlags the key set is the union over
the whole chain and each key's value comes from the level nearest to
self that defines it; the documented three-level example yields exactly
first:1, second:2, third:3, override:2. -/
theorem merged_profile_precedence :
    (∀ name chain j, (∀ pd ∈ chain, NodupKeys pd.OtherFlags) →
      lookupKey (mergeChain name chain).OtherFlags j = firstDefined chain j) ∧
    (∀ chain j, (∀ pd ∈ chain, NodupKeys pd.OtherFlags) →
      ((lookupKey (mergeChainOther chain) j).isSome ↔
        ∃ pd ∈ chain, (lookupKey pd.OtherFlags j).isSome)) ∧
    (∀ name chain,
      (mergeChain name chain).Initialize
          = (firstSome (chain.map (·.Initialize))).getD false ∧
      (mergeChain name chain).Quiet = (firstSome (chain.map (·.Quiet))).getD false ∧
      (mergeChain name chain).Verbose = (firstSome (chain.map (·.Verbose))).getD false ∧
      (mergeChain name chain).Repository
          = (firstSome (chain.map (·.Repository))).getD "") ∧
    (∀ name chain, (∀ pd ∈ chain, pd.Initialize = none) →
      (mergeChain name chain).Initialize = false) ∧
    (∀ name pd rest b, pd.Initialize = some b →
      (mergeChain name (pd :: rest)).Initialize = b) ∧
    ((loadProfile storeOverride "profile").1.map (·.Initialize) = some false) ∧
    loadProfile storeMulti "profile" = (some
      { Name := "profile", Initialize := true, Quiet := false, Verbose := true,
        Repository := "parent", Host := "",
        OtherFlags := [("first-value", .vint 1), ("override-value", .vint 2),
          ("second-value", .vint 2), ("third-value", .vint 3)],
        Sections := [] }, none) := by
  refine ⟨?_, ?_, ?_, ?_, ?_, ?_, ?_⟩
  · intro name chain j h
    exact lookupKey_mergeChainOther chain h j
  · intro chain j h
    rw [lookupKey_mergeChainOther chain h j]
    exact firstDefined_isSome chain j
  · intro name chain
    exact ⟨rfl, rfl, rfl, rfl⟩
  · intro name chain h
    have hall : ∀ x ∈ chain.map (·.Initialize), x = none := by
      intro x hx
      obtain ⟨pd, hpd, hx⟩ := List.mem_map.mp hx
      exact hx ▸ h pd hpd
    simp [mergeChain, firstSome_of_all_none _ hall]
  · intro name pd rest b h
    simp [mergeChain, h, firstSome]
  · rfl
  · rfl

theorem merged_profile_precedence_witness :
    lookupKey (mergeChain "profile" chainMulti).OtherFlags "override-value"
      = firstDefined chainMulti "override-value" :=
  merged_profile_precedence.1 "profile" chainMulti "override-value" (by decide)

/-- C5: a profile name entirely absent from the store resolves to an
absent profile together with a nil error, distinguishing no-such-profile
from malformed-chain errors. -/
theorem absent_profile_resolution (store : Store) (name : String)
    (h : lookupKey store name = none) :
    loadProfile store name = (none, none) := by
  unfold loadProfile lookupMapEntry
  rw [h]

theorem absent_profile_resolution_witness :
    loadProfile [] "profile" = (none, none) :=
  absent_profile_resolution [] "profile" rfl

/-- C6: a profile whose inherit entry references a name with no
corresponding entry in the store resolves to a non-nil error, and
resolution never produces a profile alongside an error. -/
theorem unknown_parent_resolution :
    (∀ store name entries parent, lookupMapEntry store name = some entries →
      (toProfileDef name entries).Inherit = some parent →
      lookupMapEntry store parent = none →
      loadProfile store name = (none, some (.unknownParent parent))) ∧
    (∀ store name, (loadProfile store name).2 ≠ none →
      (loadProfile store name).1 = none) := by
  constructor
  · intro store name entries parent hm hinh hpar
    have hne : parent ≠ name := by
      intro hh
      rw [hh, hm] at hpar
      exact Option.noConfusion hpar
    have hb : buildChain store (store.length + 1) [name] name entries
        = .error (.unknownParent parent) := by
      rw [buildChain]
      simp [hinh, hne, hpar]
    unfold loadProfile
    rw [hm]
    simp [hb]
  · intro store name h
    rcases hm : lookupMapEntry store name with _ | entries
    · unfold loadProfile
      rw [hm]
    · rcases hb : buildChain store (store.length + 1) [name] name entries with e | chain
      · unfold loadProfile
        rw [hm]
        simp [hb]
      · exfalso
        apply h
        unfold loadProfile
        rw [hm]
        simp [hb]

theorem unknown_parent_resolution_witness :
    loadProfile storeUnknown "profile" = (none, some (.unknownParent "parent")) :=
  unknown_parent_resolution.1 storeUnknown "profile"
    [("inherit", .vstr "parent")] "parent" rfl rfl rfl

/-- C9: ProfileGroups returns a present-but-empty mapping when the
reserved groups section exists but is empty, an absent result when the
groups section is entirely missing, and otherwise one entry per
declared group mapping its name to the ordered member list. -/
theorem profile_groups_resolution :
    (∀ store, lookupKey store "groups" = none → ProfileGroups store = none) ∧
    (∀ store, lookupKey store "groups" = some (.vmap []) →
      ProfileGroups store = some []) ∧
    (∀ store g, lookupKey store "groups" = some (.vmap g) →
      ProfileGroups store = some (g.map (fun kv => (kv.1, toStringList kv.2)))) ∧
    (ProfileGroups [] = none) ∧
    (ProfileGroups [("groups", .vmap [])] = some []) ∧
    (ProfileGroups storeGroups
      = some [("first", ["backup"]), ("second", ["root", "dev"])]) := by
  refine ⟨?_, ?_, ?_, rfl, rfl, rfl⟩
  · intro store h
    unfold ProfileGroups
    rw [h]
  · intro store h
    unfold ProfileGroups
    rw [h]
    rfl
  · intro store g h
    unfold ProfileGroups
    rw [h]

theorem profile_groups_resolution_witness :
    ProfileGroups [("other", .vint 2)] = none :=
  profile_groups_resolution.1 [("other", .vint 2)] rfl

theorem section_setHost (p : Profile) (h cmd : String) :
    (p.setHost h).section_ cmd = p.section_ cmd := rfl

theorem hostResolve_none (h : String) : hostResolve h none = none := rfl

/-- C2: flag serialisation emits bool true as a present flag with an
empty argument list and bool false as absent; the integer 0, the float
0.0, the empty string, and the empty list as absent; a nonzero integer
as a single decimal string, a nonzero float as a single fixed-point
string with six fractional digits, a non-empty string as a single
verbatim element, and a non-empty list as one stringified element per
entry in order; GetCommonFlags and GetCommandFlags emit each merged
entry according to this table. -/
theorem flag_serialization_rules :
    (serializeValue (.vbool true) = some []) ∧
    (serializeValue (.vbool false) = none) ∧
    (serializeValue (.vint 0) = none) ∧
    (serializeValue (.vfloat 0) = none) ∧
    (serializeValue (.vstr "") = none) ∧
    (serializeValue (.vlist []) = none) ∧
    (∀ n : Int, n ≠ 0 → serializeValue (.vint n) = some [toString n]) ∧
    (∀ m : Int, m ≠ 0 → serializeValue (.vfloat m) = some [formatMicro m]) ∧
    (∀ s : String, s ≠ "" → serializeValue (.vstr s) = some [s]) ∧
    (∀ (x : Value) (xs : List Value),
      serializeValue (.vlist (x :: xs)) = some ((x :: xs).map stringify)) ∧
    (∀ (p : Profile) (j : String), NodupKeys p.OtherFlags →
      p.Quiet = false → p.Verbose = false → p.Repository = "" →
      lookupKey p.GetCommonFlags j = (lookupKey p.OtherFlags j).bind serializeValue) ∧
    (∀ (p : Profile) (cmd : String) (entries : Entries) (j : String),
      p.section_ cmd = some entries → NodupKeys entries → j ≠ "host" →
      lookupKey (p.GetCommandFlags cmd) j
        = (lookupKey entries j).bind serializeValue) ∧
    (pFlags.GetCommonFlags = [("bool-true", []), ("string", ["test"]),
      ("float", ["4.200000"]), ("int", ["42"]), ("array1", ["1"]),
      ("array2", ["one", "two"])]) := by
  refine ⟨rfl, rfl, rfl, rfl, rfl, rfl, ?_, ?_, ?_, ?_, ?_, ?_, rfl⟩
  · intro n hn
    simp [serializeValue, hn]
  · intro m hm
    simp [serializeValue, hm]
  · intro s hs
    simp [serializeValue, hs]
  · intro x xs
    simp [serializeValue]
  · intro p j hnd hq hv hr
    unfold Profile.GetCommonFlags
    rw [show scalarFlags p = [] from by simp [scalarFlags, hq, hv, hr]]
    rw [List.nil_append]
    exact lookupKey_addFlags _ hnd j
  · intro p cmd entries j hsec hnd hj
    have hnd' : NodupKeys (hostSubst p.Host entries) := by
      unfold NodupKeys
      rw [keysOf_hostSubst]
      exact hnd
    simp only [Profile.GetCommandFlags, hsec]
    rw [lookupKey_addFlags _ hnd' j, lookupKey_hostSubst_ne _ _ _ hj]

theorem flag_serialization_rules_witness :
    serializeValue (.vint 42) = some ["42"] ∧
    serializeValue (.vstr "test") = some ["test"] :=
  ⟨flag_serialization_rules.2.2.2.2.2.2.1 42 (by decide),
   flag_serialization_rules.2.2.2.2.2.2.2.2.1 "test" (by decide)⟩

/-- C3: in a section with a host entry, GetCommandFlags after
SetHost(h) emits the flag host with the single argument h when the
entry is the boolean true (for a non-empty current host), emits a
non-empty literal string verbatim independently of the current-host
value, and omits the host flag entirely when the entry is false or
absent. -/
theorem host_flag_resolution (p : Profile) (h cmd : String) (entries : Entries)
    (hsec : p.section_ cmd = some entries) (hnd : NodupKeys entries) :
    (lookupKey entries "host" = some (.vbool true) → h ≠ "" →
      lookupKey ((p.setHost h).GetCommandFlags cmd) "host" = some [h]) ∧
    (∀ s, lookupKey entries "host" = some (.vstr s) → s ≠ "" →
      lookupKey ((p.setHost h).GetCommandFlags cmd) "host" = some [s]) ∧
    (lookupKey entries "host" = some (.vbool false) →
      lookupKey ((p.setHost h).GetCommandFlags cmd) "host" = none) ∧
    (lookupKey entries "host" = none →
      lookupKey ((p.setHost h).GetCommandFlags cmd) "host" = none) := by
  have hnd' : NodupKeys (hostSubst (p.setHost h).Host entries) := by
    unfold NodupKeys
    rw [keysOf_hostSubst]
    exact hnd
  have hbase : lookupKey ((p.setHost h).GetCommandFlags cmd) "host"
      = (hostResolve h (lookupKey entries "host")).bind serializeValue := by
    simp only [Profile.GetCommandFlags, section_setHost, hsec]
    rw [lookupKey_addFlags _ hnd', lookupKey_hostSubst_host]
    rfl
  refine ⟨?_, ?_, ?_, ?_⟩
  · intro hhost hne
    rw [hbase, hhost, hostResolve_some]
    simp [hostValueSubst, serializeValue, hne]
  · intro s hhost hne
    rw [hbase, hhost, hostResolve_some]
    simp [hostValueSubst, serializeValue, hne]
  · intro hhost
    rw [hbase, hhost, hostResolve_some]
    simp [hostValueSubst, serializeValue]
  · intro hhost
    rw [hbase, hhost, hostResolve_none]
    rfl

theorem host_flag_resolution_witness :
    lookupKey ((pHost.setHost "TestHost").GetCommandFlags "backup") "host"
        = some ["TestHost"] ∧
    lookupKey ((pHost.setHost "TestHost").GetCommandFlags "snapshots") "host"
        = some ["ConfigHost"] :=
  ⟨(host_flag_resolution pHost "TestHost" "backup" [("host", .vbool true)]
      rfl (by decide)).1 rfl (by decide),
   (host_flag_resolution pHost "TestHost" "snapshots" [("host", .vstr "ConfigHost")]
      rfl (by decide)).2.1 "ConfigHost" rfl (by decide)⟩

/-- C4: GetRetentionFlags emits, when the retention section has no
explicit path and the backup section declares a non-empty string
source, the retention path flag with exactly that source value; and
whenever retention declares an explicit non-empty string path, that
value is emitted unchanged regardless of any backup source. -/
theorem retention_path_defaulting (p : Profile) :
    (∀ rent b s, p.section_ "retention" = some rent → NodupKeys rent →
      lookupKey rent "path" = none →
      p.section_ "backup" = some b →
      lookupKey b "source" = some (.vstr s) → s ≠ "" →
      lookupKey p.GetRetentionFlags "path" = some [s]) ∧
    (∀ rent t, p.section_ "retention" = some rent → NodupKeys rent →
      lookupKey rent "path" = some (.vstr t) → t ≠ "" →
      lookupKey p.GetRetentionFlags "path" = some [t]) := by
  constructor
  · intro rent b s hrent hnd hpath hbackup hsource hs
    have hmem : "path" ∉ keysOf rent := (lookupKey_eq_none_iff rent "path").mp hpath
    have hret : retentionWithPath p = rent ++ [("path", Value.vstr s)] := by
      simp only [retentionWithPath, hrent, Option.getD_some, hpath, hbackup, hsource]
      exact setKey_of_not_mem rent "path" (.vstr s) hmem
    have hnd2 : NodupKeys (rent ++ [("path", Value.vstr s)]) := by
      unfold NodupKeys keysOf at hnd ⊢
      simp only [List.map_append, List.map_cons, List.map_nil]
      rw [List.nodup_append]
      refine ⟨hnd, List.nodup_singleton _, ?_⟩
      intro a ha hb
      simp only [List.mem_singleton] at hb
      subst hb
      exact hmem ha
    have hnd3 : NodupKeys (hostSubst p.Host (rent ++ [("path", Value.vstr s)])) := by
      unfold NodupKeys
      rw [keysOf_hostSubst]
      exact hnd2
    unfold Profile.GetRetentionFlags
    rw [hret, lookupKey_addFlags _ hnd3,
      lookupKey_hostSubst_ne _ _ _ (by decide), lookupKey_append, hpath]
    simp [lookupKey, orOpt, serializeValue, hs]
  · intro rent t hrent hnd hpath ht
    have hret : retentionWithPath p = rent := by
      simp only [retentionWithPath, hrent, Option.getD_some, hpath]
    have hnd3 : NodupKeys (hostSubst p.Host rent) := by
      unfold NodupKeys
      rw [keysOf_hostSubst]
      exact hnd
    unfold Profile.GetRetentionFlags
    rw [hret, lookupKey_addFlags _ hnd3,
      lookupKey_hostSubst_ne _ _ _ (by decide), hpath]
    simp [serializeValue, ht]

theorem retention_path_defaulting_witness :
    lookupKey pKeep.GetRetentionFlags "path" = some ["/"] ∧
    lookupKey pReplace.GetRetentionFlags "path" = some ["/"] :=
  ⟨(retention_path_defaulting pKeep).1 [("host", .vbool false)]
      [("source", .vstr "/")] "/" rfl (by decide) rfl rfl rfl (by decide),
   (retention_path_defaulting pReplace).2 [("path", .vstr "/")] "/"
      rfl (by decide) rfl (by decide)⟩

/-- C10: GetCommonFlags emits the dedicated Repository scalar under the
flag name repo rather than repository, while the Quiet and Verbose
scalars are emitted under their own names quiet and verbose following
the boolean emission rules (a fact the spec leaves unstated). -/
theorem common_flags_scalar_names (p : Profile)
    (h1 : "quiet" ∉ keysOf p.OtherFlags) (h2 : "verbose" ∉ keysOf p.OtherFlags)
    (h3 : "repo" ∉ keysOf p.OtherFlags) (h4 : "repository" ∉ keysOf p.OtherFlags) :
    (lookupKey p.GetCommonFlags "repo"
        = if p.Repository = "" then none else some [p.Repository]) ∧
    (lookupKey p.GetCommonFlags "repository" = none) ∧
    (lookupKey p.GetCommonFlags "quiet" = if p.Quiet then some [] else none) ∧
    (lookupKey p.GetCommonFlags "verbose" = if p.Verbose then some [] else none) := by
  refine ⟨?_, ?_, ?_, ?_⟩ <;>
    · unfold Profile.GetCommonFlags
      rw [lookupKey_append]
      first
        | rw [lookupKey_addFlags_of_not_mem _ _ h3]
        | rw [lookupKey_addFlags_of_not_mem _ _ h4]
        | rw [lookupKey_addFlags_of_not_mem _ _ h1]
        | rw [lookupKey_addFlags_of_not_mem _ _ h2]
      by_cases hq : p.Quiet <;> by_cases hv : p.Verbose <;>
        by_cases hr : p.Repository = "" <;>
          simp [scalarFlags, lookupKey, orOpt, hq, hv, hr]

theorem common_flags_scalar_names_witness :
    lookupKey pCommon.GetCommonFlags "repo" = some ["test"] ∧
    lookupKey pCommon.GetCommonFlags "repository" = none ∧
    lookupKey pCommon.GetCommonFlags "quiet" = some [] ∧
    lookupKey pCommon.GetCommonFlags "verbose" = none := by
  obtain ⟨ha, hb, hc, hd⟩ :=
    common_flags_scalar_names pCommon (by decide) (by decide) (by decide) (by decide)
  refine ⟨?_, hb, ?_, ?_⟩
  · rw [ha]; rfl
  · rw [hc]; rfl
  · rw [hd]; rfl

theorem mem_foldl_addUnique (xs : List String) : ∀ (acc : List String) (n : String),
    (n ∈ xs.foldl (fun acc x => if acc.contains x then acc else acc ++ [x]) acc)
      ↔ n ∈ acc ∨ n ∈ xs := by
  induction xs with
  | nil => intro acc n; simp
  | cons x xs ih =>
      intro acc n
      simp only [List.foldl_cons]
      rw [ih]
      by_cases hc : acc.contains x
      · have hx : x ∈ acc := by simpa using hc
        simp only [if_pos hc, List.mem_cons]
        constructor
        · rintro (h | h)
          · exact Or.inl h
          · exact Or.inr (Or.inr h)
        · rintro (h | h | h)
          · exact Or.inl h
          · exact Or.inl (h ▸ hx)
          · exact Or.inr h
      · simp only [if_neg hc, List.mem_append, List.mem_singleton, List.mem_cons]
        tauto

theorem mem_dedup (xs : List String) (n : String) : n ∈ dedup xs ↔ n ∈ xs := by
  unfold dedup
  rw [mem_foldl_addUnique]
  simp

theorem mem_profileNameList (store : Store) (n : String) :
    n ∈ profileNameList store ↔
      n ∉ reservedNames ∧ ∃ k ∈ allKeys store, firstSegment k = n := by
  unfold profileNameList
  rw [mem_dedup]
  simp only [List.mem_filter, List.mem_map]
  constructor
  · rintro ⟨⟨k, hk, rfl⟩, hres⟩
    refine ⟨by simpa using hres, k, hk, rfl⟩
  · rintro ⟨hres, k, hk, rfl⟩
    exact ⟨⟨k, hk, rfl⟩, by simpa using hres⟩

theorem ProfileKeys_getD (store : Store) :
    (ProfileKeys store).getD [] = profileNameList store := by
  unfold ProfileKeys
  by_cases h : (profileNameList store).isEmpty
  · have h' : profileNameList store = [] := by simpa using h
    simp [h, h']
  · simp [h]

theorem expandGo_no_dollar (env : List (String × String)) (l : List Char)
    (h : '$' ∉ l) : expandGo env l false [] = l := by
  induction l with
  | nil => rfl
  | cons c cs ih =>
      simp only [List.mem_cons] at h
      push_neg at h
      have hc : ¬ c = '$' := fun hh => h.1 hh.symm
      simp [expandGo, hc, ih h.2]

theorem expandEnv_no_dollar (env : List (String × String)) (s : String)
    (h : '$' ∉ s.data) : expandEnv env s = s := by
  unfold expandEnv
  rw [expandGo_no_dollar env _ h]

/-- C7: path normalization returns the empty string for empty input;
returns absolute, home-relative and environment-variable-prefixed
paths unchanged on the variant whose syntax matches, except that the
Unix-style variant expands dollar variable references against the
environment before returning while the Windows-style variant leaves
percent references untouched; and prefixes any other relative path
with the base directory using the platform separator. The test vectors
of TestFixUnixPaths and TestFixWindowsPaths are reproduced. -/
theorem fix_path_normalization :
    (∀ env baseDir, fixPathUnix env "" baseDir = "" ∧ fixPathWindows "" baseDir = "") ∧
    (∀ env src baseDir, src ≠ "" →
      (strStartsWith src "/" = true ∨ strStartsWith src "~" = true ∨
        strStartsWith src "$" = true) →
      fixPathUnix env src baseDir = expandEnv env src) ∧
    (∀ env src, '$' ∉ src.data → expandEnv env src = src) ∧
    (∀ src baseDir, src ≠ "" →
      (isWindowsAbs src = true ∨ strStartsWith src "~" = true ∨
        strStartsWith src "%" = true) →
      fixPathWindows src baseDir = src) ∧
    (∀ env src baseDir, src ≠ "" → strStartsWith src "/" = false →
      strStartsWith src "~" = false → strStartsWith src "$" = false →
      fixPathUnix env src baseDir = joinPath "/" baseDir src) ∧
    (∀ src baseDir, src ≠ "" → isWindowsAbs src = false →
      strStartsWith src "~" = false → strStartsWith src "%" = false →
      fixPathWindows src baseDir = joinPath "\\" baseDir src) ∧
    (fixPathUnix [("TEMP_TEST_DIR", "/home")] "$TEMP_TEST_DIR/dir" "prefix"
      = "/home/dir") ∧
    (fixPathUnix [] "dir" "prefix" = "prefix/dir") ∧
    (fixPathUnix [] "/dir" "prefix" = "/dir") ∧
    (fixPathUnix [] "~/dir" "prefix" = "~/dir") ∧
    (fixPathWindows "dir" "prefix" = "prefix\\dir") ∧
    (fixPathWindows "\\dir" "prefix" = "prefix\\dir") ∧
    (fixPathWindows "c:\\dir" "prefix" = "c:\\dir") ∧
    (fixPathWindows "%TEMP_TEST_DIR%\\dir" "prefix" = "%TEMP_TEST_DIR%\\dir") := by
  refine ⟨?_, ?_, expandEnv_no_dollar, ?_, ?_, ?_,
    rfl, rfl, rfl, rfl, rfl, rfl, rfl, rfl⟩
  · intro env baseDir
    exact ⟨rfl, rfl⟩
  · intro env src baseDir hne hpre
    unfold fixPathUnix
    rw [if_neg hne]
    rcases hpre with h | h | h <;> simp [h]
  · intro src baseDir hne hpre
    unfold fixPathWindows
    rw [if_neg hne]
    rcases hpre with h | h | h <;> simp [h]
  · intro env src baseDir hne h1 h2 h3
    unfold fixPathUnix
    rw [if_neg hne]
    simp [h1, h2, h3]
  · intro src baseDir hne h1 h2 h3
    unfold fixPathWindows
    rw [if_neg hne]
    simp [h1, h2, h3]

theorem fix_path_normalization_witness :
    fixPathUnix [("TEMP_TEST_DIR", "/home")] "$TEMP_TEST_DIR/dir" "somebase"
        = expandEnv [("TEMP_TEST_DIR", "/home")] "$TEMP_TEST_DIR/dir" ∧
    fixPathWindows "c:\\dir" "somebase" = "c:\\dir" :=
  ⟨fix_path_normalization.2.1 [("TEMP_TEST_DIR", "/home")] "$TEMP_TEST_DIR/dir"
      "somebase" (by decide) (Or.inr (Or.inr (by decide))),
   fix_path_normalization.2.2.2.1 "c:\\dir" "somebase" (by decide)
      (Or.inl (by decide))⟩

theorem sectionEntryOf_eq_some (store : Store) (a n : String) (ss : List String) :
    sectionEntryOf store a = some (n, ss) ↔
      a = n ∧ ss = sectionNamesOf store n ∧ ss ≠ [] := by
  unfold sectionEntryOf
  by_cases he : (sectionNamesOf store a).isEmpty
  · rw [if_pos he]
    simp only [List.isEmpty_iff] at he
    constructor
    · intro hh; exact Option.noConfusion hh
    · rintro ⟨rfl, rfl, hne⟩
      exact absurd he hne
  · rw [if_neg he]
    simp only [List.isEmpty_iff] at he
    constructor
    · intro hh
      injection hh with hh'
      obtain ⟨rfl, rfl⟩ := Prod.mk.injEq .. ▸ And.intro (congrArg Prod.fst hh') (congrArg Prod.snd hh')
      exact ⟨rfl, rfl, he⟩
    · rintro ⟨rfl, rfl, hne⟩
      rfl

theorem ProfileSections_eq_some (store : Store) (names : List String)
    (h : ProfileKeys store = some names) :
    ProfileSections store = some (names.filterMap (sectionEntryOf store)) := by
  unfold ProfileSections
  rw [h]

theorem ProfileSections_eq_none (store : Store)
    (h : ProfileKeys store = none) : ProfileSections store = none := by
  unfold ProfileSections
  rw [h]

theorem allKeys_storeCatalog :
    allKeys storeCatalog = ["profile4.value", "profile4.backup.source",
      "profile5.other", "global.initialize"] := by
  simp [allKeys, storeCatalog, leafKeys, dotted]

theorem allKeys_nil : allKeys ([] : Store) = [] := by
  simp [allKeys, leafKeys]

/-- C8: ProfileKeys returns exactly the non-reserved top-level entries
the store enumeration exposes, absent when none exist; ProfileSections
returns exactly the subset of those entries containing at least one
command-like subsection, mapped to the subsection names; and the
TestProfileKeys and TestProfileSections configurations produce exactly
profile4 and profile5. -/
theorem profile_catalog_characterization :
    (∀ store n, n ∈ (ProfileKeys store).getD [] ↔
      n ∉ reservedNames ∧ ∃ k ∈ allKeys store, firstSegment k = n) ∧
    (∀ store, ProfileKeys store = none ↔
      ∀ k ∈ allKeys store, firstSegment k ∈ reservedNames) ∧
    (∀ store n ss, (n, ss) ∈ (ProfileSections store).getD [] ↔
      n ∈ (ProfileKeys store).getD [] ∧ ss = sectionNamesOf store n ∧ ss ≠ []) ∧
    (ProfileKeys storeCatalog = some ["profile4", "profile5"]) ∧
    (ProfileSections storeCatalog
      = some [("profile4", ["backup"]), ("profile5", ["snapshots"])]) ∧
    (ProfileKeys [] = none) ∧ (ProfileSections [] = none) := by
  have hkcat : ProfileKeys storeCatalog = some ["profile4", "profile5"] := by
    unfold ProfileKeys profileNameList
    rw [allKeys_storeCatalog]
    rfl
  have hknil : ProfileKeys ([] : Store) = none := by
    unfold ProfileKeys profileNameList
    rw [allKeys_nil]
    rfl
  have hscat : ProfileSections storeCatalog
      = some [("profile4", ["backup"]), ("profile5", ["snapshots"])] := by
    rw [ProfileSections_eq_some storeCatalog _ hkcat]
    rfl
  have hsnil : ProfileSections ([] : Store) = none :=
    ProfileSections_eq_none [] hknil
  refine ⟨?_, ?_, ?_, hkcat, hscat, hknil, hsnil⟩
  · intro store n
    rw [ProfileKeys_getD, mem_profileNameList]
  · intro store
    have hiff : profileNameList store = [] ↔
        ∀ k ∈ allKeys store, firstSegment k ∈ reservedNames := by
      rw [List.eq_nil_iff_forall_not_mem]
      constructor
      · intro h k hk
        by_contra hres
        exact h (firstSegment k)
          ((mem_profileNameList store _).mpr ⟨hres, k, hk, rfl⟩)
      · intro h n hn
        obtain ⟨hres, k, hk, hfs⟩ := (mem_profileNameList store n).mp hn
        exact hres (hfs ▸ h k hk)
    unfold ProfileKeys
    by_cases h : (profileNameList store).isEmpty
    · rw [if_pos h]
      have h' : profileNameList store = [] := by simpa using h
      exact iff_of_true rfl (hiff.mp h')
    · rw [if_neg h]
      constructor
      · intro hh
        exact Option.noConfusion hh
      · intro hr
        exact absurd (hiff.mpr hr) (by simpa using h)
  · intro store n ss
    cases hpk : ProfileKeys store with
    | none => simp [ProfileSections_eq_none store hpk, hpk]
    | some names =>
        rw [ProfileSections_eq_some store names hpk]
        have hnames : (ProfileKeys store).getD [] = names := by rw [hpk]; rfl
        simp only [Option.getD_some, hnames, List.mem_filterMap]
        constructor
        · rintro ⟨a, ha, hfa⟩
          obtain ⟨rfl, hss, hne⟩ := (sectionEntryOf_eq_some store a n ss).mp hfa
          exact ⟨ha, hss, hne⟩
        · rintro ⟨hn, hss, hne⟩
          exact ⟨n, hn, (sectionEntryOf_eq_some store n n ss).mpr ⟨rfl, hss, hne⟩⟩

theorem profile_catalog_characterization_witness :
    "profile4" ∈ (ProfileKeys storeCatalog).getD [] ↔
      "profile4" ∉ reservedNames ∧
        ∃ k ∈ allKeys storeCatalog, firstSegment k = "profile4" :=
  profile_catalog_characterization.1 storeCatalog "profile4"

end Resticprofile
